import Mathlib

/-!
Verification model of the libmount monitor subsystem (monitor.c / monitor.h).

The monitor aggregates several backend notification sources into one epoll
descriptor.  We embed the aggregator state (struct libmnt_monitor), the entry
records (struct monitor_entry) and the consumer-facing operations
(monitor_modify_epoll, mnt_monitor_get_fd, mnt_monitor_close_fd,
mnt_monitor_wait, mnt_monitor_next_change, mnt_monitor_event_next_fs)
as pure state-passing functions.

OS facilities (epoll, the backend drivers) are modelled explicitly:
* the epoll instance is part of the state: a set `reg` of registered entry
  indices (each registration carries the entry as its `data.ptr` tag, and by
  the resource model no descriptor is ever shared between two entries, so a
  registration is identified with its entry index) and an edge-triggered
  queue `pending` of ready registrations that `epoll_wait` pops;
* results of the individual OS / driver calls that the monitor makes
  (epoll_create1, the driver op_get_fd, epoll_ctl ADD/DEL, the synthetic
  initial readiness events that registering a fresh table descriptor
  generates) are supplied by an oracle structure `Os`, so that every error
  path of the C code is representable.
C returns -errno on failure; we keep that convention, conflating a failed
call's result with the negative errno it sets.
-/

namespace MonitorModel

/-- errno EEXIST. -/
def EEXIST : Int := 17

/-- errno ENOENT. -/
def ENOENT : Int := 2

/-- errno EINVAL. -/
def EINVAL : Int := 22

/-- errno ENOTSUP (EOPNOTSUPP on Linux). -/
def ENOTSUP : Int := 95

/-- epoll event bit EPOLLIN. -/
def EPOLLIN : Nat := 1

/-- epoll event bit EPOLLET (1 <<< 31). -/
def EPOLLET : Nat := 2147483648

/-- struct monitor_entry (monitor.h).  The driver operation table `opers` is
not part of this repository slice; its behaviour is represented by the
fields `hasNextFs` (op_next_fs is a non-null pointer), `procResult`
(modelled from the spec: the classification op_process_event returns for a
ready event on this entry: 0 accept, 1 ignore, <0 error) and `nextFsResult`
(modelled from the spec: what op_next_fs returns for the last event). -/
structure MonitorEntry where
  fd : Int
  id : Int
  path : String
  type : Int
  events : Nat
  enabled : Bool
  active : Bool
  hasNextFs : Bool
  procResult : Int
  nextFsResult : Int
  deriving Repr, DecidableEq

/-- struct libmnt_monitor plus the state of its epoll instance.
`fd` is the public monitor descriptor (-1 = unset), `ents` the ordered entry
list, `last` the back-reference set by mnt_monitor_next_change (an index into
`ents`), `reg` the set of entry indices currently registered with the epoll
instance, and `pending` the queued edge-triggered readiness events. -/
structure MState where
  fd : Int
  ents : List MonitorEntry
  last : Option Nat
  reg : List Nat
  pending : List Nat
  deriving Repr, DecidableEq

/-- Oracle for the OS / driver calls the monitor performs.
`epollCreate`: result of epoll_create1 (a fresh descriptor, or the negative
errno on failure).  `getFd i`: result of entry i's op_get_fd (the entry
descriptor, or negative on failure; the C code then returns -errno, which we
conflate with the returned value).  `addRes i` / `delRes i`: errno of
epoll_ctl ADD / DEL for entry i (`none` = success).  `initEvents i`: the
synthetic readiness events the kernel queues when entry i's freshly opened
table descriptor is registered (e.g. the initial event for
/proc/self/mountinfo). -/
structure Os where
  epollCreate : Int
  getFd : Nat → Int
  addRes : Nat → Option Int
  delRes : Nat → Option Int
  initEvents : Nat → List Nat

/-- Replace entry `i` by `f` applied to it (out-of-range: no change). -/
def updateEnt (ents : List MonitorEntry) (i : Nat) (f : MonitorEntry → MonitorEntry) :
    List MonitorEntry :=
  match ents[i]? with
  | some me => ents.set i (f me)
  | none => ents

/-- Register index `i` in the epoll registration set (idempotent, as
epoll_ctl ADD of an already-registered descriptor is refused with EEXIST). -/
def regInsert (i : Nat) (l : List Nat) : List Nat :=
  if i ∈ l then l else l ++ [i]

/-- Remove index `i` from the epoll registration set. -/
def regRemove (i : Nat) (l : List Nat) : List Nat :=
  l.filter (fun j => j != i)

/-- mnt_new_monitor: refcount 1 (not modelled), fd = -1, empty entry list. -/
def mnt_new_monitor : MState :=
  { fd := -1, ents := [], last := none, reg := [], pending := [] }

/-- monitor_new_entry: append a zero-initialised entry (fd = -1, id = -1)
whose driver fields are filled in by the type-specific enable call. -/
def monitor_new_entry (st : MState) (me : MonitorEntry) : MState :=
  { st with ents := st.ents ++ [me] }

/-- monitor_modify_epoll (monitor.c lines 178-225): set the entry's enabled
and active flags, then, when the top-level epoll exists, add/remove the
entry's descriptor.  On enable, op_get_fd produces (and the entry stores)
the private descriptor; an EEXIST from epoll_ctl ADD is swallowed; when the
wanted events include EPOLLIN or EPOLLET, a zero-timeout epoll_wait loop
drains every pending event.  On disable, a DEL is attempted only when
me->fd is non-zero, and an ENOENT is swallowed. -/
def monitor_modify_epoll (os : Os) (st : MState) (i : Nat) (enable : Bool) :
    Int × MState :=
  match st.ents[i]? with
  | none => (-EINVAL, st)
  | some me0 =>
    let me := { me0 with enabled := enable, active := false }
    let st0 := { st with ents := st.ents.set i me }
    if st0.fd < 0 then (0, st0)
    else if enable then
      let gfd := os.getFd i
      if gfd < 0 then (gfd, st0)
      else
        let st1 := { st0 with ents := st0.ents.set i { me with fd := gfd } }
        let afterCtl : Int × MState :=
          match os.addRes i with
          | none => (0, { st1 with reg := regInsert i st1.reg,
                                   pending := st1.pending ++ os.initEvents i })
          | some e => if e = EEXIST then (0, st1) else (-e, st1)
        if afterCtl.1 != 0 then afterCtl
        else if me.events &&& (EPOLLIN ||| EPOLLET) != 0 then
          (0, { afterCtl.2 with pending := [] })
        else afterCtl
    else if me.fd != 0 then
      match os.delRes i with
      | none => (0, { st0 with reg := regRemove i st0.reg })
      | some e => if e = ENOENT then (0, st0) else (-e, st0)
    else (0, st0)

/-- The per-entry body of mnt_monitor_close_fd's loop: disable via
monitor_modify_epoll when the epoll exists (result ignored), then the
driver's op_close_fd releases the entry descriptor (modelled from the spec:
close_descriptor releases that descriptor, leaving it unset). -/
def closeLoop (os : Os) : MState → List Nat → MState
  | st, [] => st
  | st, i :: rest =>
    let st1 := if 0 ≤ st.fd then (monitor_modify_epoll os st i false).2 else st
    let st2 := { st1 with ents := updateEnt st1.ents i (fun me => { me with fd := -1 }) }
    closeLoop os st2 rest

/-- mnt_monitor_close_fd (monitor.c lines 240-267). -/
def mnt_monitor_close_fd (os : Os) (mn : Option MState) : Int × Option MState :=
  match mn with
  | none => (-EINVAL, none)
  | some st =>
    let st1 := closeLoop os st (List.range st.ents.length)
    (0, some { st1 with fd := -1, reg := [], pending := [] })

/-- The registration loop of mnt_monitor_get_fd: walk the entries, register
each enabled one, stop at the first failure. -/
def registerEnabled (os : Os) : MState → List Nat → Int × MState
  | st, [] => (0, st)
  | st, i :: rest =>
    match st.ents[i]? with
    | none => registerEnabled os st rest
    | some me =>
      if me.enabled then
        let r := monitor_modify_epoll os st i true
        if r.1 != 0 then r
        else registerEnabled os r.2 rest
      else registerEnabled os st rest

/-- mnt_monitor_get_fd (monitor.c lines 279-314): idempotent accessor that
lazily creates the epoll instance and registers every enabled entry; any
registration failure closes the fresh epoll descriptor and resets fd to -1
(the negative error is recomputed from errno, which still carries the
failing call's error). -/
def mnt_monitor_get_fd (os : Os) (mn : Option MState) : Int × Option MState :=
  match mn with
  | none => (-EINVAL, none)
  | some st =>
    if 0 ≤ st.fd then (st.fd, some st)
    else if os.epollCreate < 0 then (os.epollCreate, some { st with fd := -1 })
    else
      let st1 := { st with fd := os.epollCreate, reg := [], pending := [] }
      let r := registerEnabled os st1 (List.range st1.ents.length)
      if r.1 != 0 then (r.1, some { r.2 with fd := -1, reg := [], pending := [] })
      else (st1.fd, some r.2)

/-- The classification loop of read_epoll_events over the pending queue:
pop one ready registration at a time, resolve its tag, call
op_process_event; stop on accept (0) or error, keep looping on ignore (1);
an empty queue is a timeout (1, no entry). -/
def readLoop (ents : List MonitorEntry) : List Nat → Int × List Nat × Option Nat
  | [] => (1, [], none)
  | i :: rest =>
    match ents[i]? with
    | none => (-EINVAL, rest, none)
    | some me =>
      if me.procResult < 0 then (me.procResult, rest, none)
      else if me.procResult = 0 then (0, rest, some i)
      else readLoop ents rest

/-- read_epoll_events (monitor.c lines 317-363): one read-and-classify pass.
Returns <0 error, 0 success (the accepted entry gets active := true and is
reported), 1 nothing/timeout.  An epoll_wait on an empty pending queue is
modelled as expiring with no event, whatever the timeout. -/
def read_epoll_events (st : MState) (_timeout : Int) : Int × MState × Option Nat :=
  let r := readLoop st.ents st.pending
  match r.2.2 with
  | some i =>
    (r.1, { st with pending := r.2.1,
                    ents := updateEnt st.ents i (fun me => { me with active := true }) },
     some i)
  | none => (r.1, { st with pending := r.2.1 }, none)

/-- mnt_monitor_wait (monitor.c lines 376-394): ensure the epoll descriptor
exists, run one read-and-classify pass, and map its result
{0, 1, error} to {1 changed, 0 timeout, error}. -/
def mnt_monitor_wait (os : Os) (mn : Option MState) (timeout : Int) :
    Int × Option MState :=
  match mn with
  | none => (-EINVAL, none)
  | some st =>
    let pre := if st.fd < 0 then mnt_monitor_get_fd os (some st) else (0, some st)
    match pre.2 with
    | none => (-EINVAL, none)
    | some st1 =>
      if pre.1 < 0 then (pre.1, some st1)
      else
        let r := read_epoll_events st1 timeout
        ((if r.1 = 0 then 1 else if r.1 = 1 then 0 else r.1), some r.2.1)

/-- get_active (monitor.c lines 397-408): first entry with active set. -/
def get_active (st : MState) : Option Nat :=
  st.ents.findIdx? (fun me => me.active)

/-- The success tail of mnt_monitor_next_change: clear the chosen entry's
active flag, record it as last, report its path and type. -/
def nextChangeFinish (st : MState) (i : Nat) :
    Int × Option MState × Option (String × Int) :=
  match st.ents[i]? with
  | none => (-EINVAL, some st, none)
  | some me =>
    (0, some { st with ents := st.ents.set i { me with active := false },
                       last := some i },
     some (me.path, me.type))

/-- mnt_monitor_next_change (monitor.c lines 425-454): reject a null monitor
or an unset descriptor, clear the last back-reference, return the already
active entry if any, otherwise run a zero-timeout read-and-classify pass;
on success consume the event (active := false), record it as last and
report path and type. -/
def mnt_monitor_next_change (mn : Option MState) :
    Int × Option MState × Option (String × Int) :=
  match mn with
  | none => (-EINVAL, none, none)
  | some st =>
    if st.fd < 0 then (-EINVAL, some st, none)
    else
      let st0 := { st with last := none }
      match get_active st0 with
      | some i => nextChangeFinish st0 i
      | none =>
        let r := read_epoll_events st0 0
        if r.1 != 0 then (r.1, some r.2.1, none)
        else
          match r.2.2 with
          | some i => nextChangeFinish r.2.1 i
          | none => (-EINVAL, some r.2.1, none)

/-- mnt_monitor_event_next_fs (monitor.c lines 501-511): null monitor or
null fs is -EINVAL; no last event returns 1; a last entry whose driver has
no op_next_fs is -ENOTSUP; otherwise the driver result. -/
def mnt_monitor_event_next_fs (mn : Option MState) (fs : Option Unit) : Int :=
  match mn, fs with
  | none, _ => -EINVAL
  | _, none => -EINVAL
  | some st, some _ =>
    match st.last with
    | none => 1
    | some i =>
      match st.ents[i]? with
      | none => -EINVAL
      | some me => if me.hasNextFs then me.nextFsResult else -ENOTSUP

/-- The enabled flag of the entry at index `i` (false when out of range). -/
def entEnabledL (ents : List MonitorEntry) (i : Nat) : Bool :=
  match ents[i]? with
  | some me => me.enabled
  | none => false

/-- The enabled flag of entry `i` of the monitor. -/
def entEnabled (st : MState) (i : Nat) : Bool :=
  entEnabledL st.ents i

/-- The invariant of spec section 3: once the multiplexing descriptor
exists, the epoll registration set holds exactly the entries whose enabled
flag is true. -/
def regInv (st : MState) : Prop :=
  0 ≤ st.fd →
    (∀ j ∈ st.reg, j < st.ents.length) ∧
    (∀ i < st.ents.length, (i ∈ st.reg ↔ entEnabled st i = true))

/-- No entry descriptor is the value 0 (the descriptors drivers hand out are
ordinary open descriptors; 0 would be mistaken for "unset" by the disable
path's me->fd test). -/
def entsFdNz (st : MState) : Prop :=
  ∀ me ∈ st.ents, me.fd ≠ 0

/-- Inductive invariant for enable/disable/get-descriptor sequences. -/
def monInv (st : MState) : Prop :=
  regInv st ∧ entsFdNz st

/-- The OS and driver calls all succeed: op_get_fd yields a positive
descriptor, epoll_ctl ADD and DEL succeed. -/
def goodOracle (os : Os) : Prop :=
  (∀ i, 0 < os.getFd i) ∧ (∀ i, os.addRes i = none) ∧ (∀ i, os.delRes i = none)

/-- One registration-affecting call on a monitor. -/
inductive MOp where
  | enable (i : Nat)
  | disable (i : Nat)
  | getfd
  deriving Repr, DecidableEq

/-- Run one call. -/
def applyOp (os : Os) (st : MState) : MOp → Int × MState
  | .enable i => monitor_modify_epoll os st i true
  | .disable i => monitor_modify_epoll os st i false
  | .getfd =>
    let r := mnt_monitor_get_fd os (some st)
    (r.1, r.2.getD st)

/-- Run a sequence of calls, stopping (with `none`) at the first failure. -/
def runOps (os : Os) : MState → List MOp → Option MState
  | st, [] => some st
  | st, op :: rest =>
    let r := applyOp os st op
    if r.1 < 0 then none else runOps os r.2 rest

theorem mem_regInsert {i j : Nat} {l : List Nat} :
    j ∈ regInsert i l ↔ j ∈ l ∨ j = i := by
  unfold regInsert
  split
  · constructor
    · exact fun h => Or.inl h
    · rintro (h | rfl)
      · exact h
      · assumption
  · simp [List.mem_append]

theorem mem_regRemove {i j : Nat} {l : List Nat} :
    j ∈ regRemove i l ↔ j ∈ l ∧ j ≠ i := by
  unfold regRemove
  simp [List.mem_filter]

theorem entEnabledL_set {ents : List MonitorEntry} {i k : Nat} {me : MonitorEntry}
    (hi : i < ents.length) :
    entEnabledL (ents.set i me) k = if k = i then me.enabled else entEnabledL ents k := by
  unfold entEnabledL
  by_cases h : k = i
  · subst h
    simp [List.getElem?_set_self hi]
  · simp [List.getElem?_set_ne (fun he => h he.symm), h]

theorem lt_length_of_getElem?_eq_some {l : List MonitorEntry} {i : Nat}
    {me : MonitorEntry} (h : l[i]? = some me) : i < l.length := by
  rcases List.getElem?_eq_some_iff.1 h with ⟨hl, _⟩
  exact hl

theorem mem_of_getElem?_eq_some {l : List MonitorEntry} {i : Nat}
    {me : MonitorEntry} (h : l[i]? = some me) : me ∈ l := by
  exact List.mem_iff_getElem?.2 ⟨i, h⟩

theorem modify_noEpoll {os : Os} {st : MState} {i : Nat} {en : Bool}
    {me0 : MonitorEntry} (hget : st.ents[i]? = some me0) (hfd : st.fd < 0) :
    monitor_modify_epoll os st i en =
      (0, { st with ents := st.ents.set i { me0 with enabled := en, active := false } }) := by
  unfold monitor_modify_epoll
  rw [hget]
  simp [hfd]

theorem modify_enable_ok {os : Os} {st : MState} {i : Nat} {me0 : MonitorEntry}
    (hget : st.ents[i]? = some me0) (hfd : 0 ≤ st.fd)
    (hg : 0 ≤ os.getFd i) (hadd : os.addRes i = none) :
    monitor_modify_epoll os st i true =
      (0, { st with
              ents := st.ents.set i
                { me0 with enabled := true, active := false, fd := os.getFd i },
              reg := regInsert i st.reg,
              pending := if me0.events &&& (EPOLLIN ||| EPOLLET) != 0 then []
                         else st.pending ++ os.initEvents i }) := by
  unfold monitor_modify_epoll
  rw [hget]
  simp only [not_lt.2 hfd, if_false, if_true, hadd, List.set_set]
  by_cases hmask : me0.events &&& (EPOLLIN ||| EPOLLET) != 0
  · simp [not_lt.2 hfd, not_lt.2 hg, hmask]
  · simp [not_lt.2 hfd, not_lt.2 hg, hmask]

theorem modify_disable_ok {os : Os} {st : MState} {i : Nat} {me0 : MonitorEntry}
    (hget : st.ents[i]? = some me0) (hfd : 0 ≤ st.fd)
    (hnz : me0.fd ≠ 0) (hdel : os.delRes i = none) :
    monitor_modify_epoll os st i false =
      (0, { st with
              ents := st.ents.set i { me0 with enabled := false, active := false },
              reg := regRemove i st.reg }) := by
  unfold monitor_modify_epoll
  rw [hget]
  simp [not_lt.2 hfd, hdel, hnz]

theorem modify_disable_enoent {os : Os} {st : MState} {i : Nat} {me0 : MonitorEntry}
    (hget : st.ents[i]? = some me0) (hfd : 0 ≤ st.fd)
    (hnz : me0.fd ≠ 0) (hdel : os.delRes i = some ENOENT) :
    monitor_modify_epoll os st i false =
      (0, { st with ents := st.ents.set i { me0 with enabled := false, active := false } }) := by
  unfold monitor_modify_epoll
  rw [hget]
  simp [not_lt.2 hfd, hdel, hnz]

theorem modify_disable_err {os : Os} {st : MState} {i : Nat} {me0 : MonitorEntry}
    {e : Int} (hget : st.ents[i]? = some me0) (hfd : 0 ≤ st.fd)
    (hnz : me0.fd ≠ 0) (hdel : os.delRes i = some e) (he : e ≠ ENOENT) :
    monitor_modify_epoll os st i false =
      (-e, { st with ents := st.ents.set i { me0 with enabled := false, active := false } }) := by
  unfold monitor_modify_epoll
  rw [hget]
  simp [not_lt.2 hfd, hdel, hnz, he]

theorem modify_disable_parts {os : Os} {st : MState} {i : Nat} {me0 : MonitorEntry}
    (hget : st.ents[i]? = some me0) :
    (monitor_modify_epoll os st i false).2.ents =
        st.ents.set i { me0 with enabled := false, active := false } ∧
    (monitor_modify_epoll os st i false).2.fd = st.fd ∧
    (monitor_modify_epoll os st i false).2.last = st.last ∧
    (monitor_modify_epoll os st i false).2.pending = st.pending := by
  unfold monitor_modify_epoll
  rw [hget]
  by_cases hfd : st.fd < 0
  · simp [hfd]
  · by_cases hnz : me0.fd ≠ 0
    · cases hdel : os.delRes i with
      | none => simp [hfd, hnz, hdel]
      | some e =>
        by_cases he : e = ENOENT
        · simp [hfd, hnz, hdel, he]
        · simp [hfd, hnz, hdel, he]
    · simp [hfd, hnz]

theorem readLoop_cases (ents : List MonitorEntry) :
    ∀ p : List Nat,
      ((readLoop ents p).1 = 1 ∧ (readLoop ents p).2.2 = none) ∨
      ((readLoop ents p).1 = 0 ∧ ∃ i, (readLoop ents p).2.2 = some i) ∨
      ((readLoop ents p).1 < 0 ∧ (readLoop ents p).2.2 = none)
  | [] => by simp [readLoop]
  | i :: rest => by
    unfold readLoop
    cases hget : ents[i]? with
    | none =>
      refine Or.inr (Or.inr ?_)
      constructor
      · simp [EINVAL]
      · rfl
    | some me =>
      by_cases hneg : me.procResult < 0
      · exact Or.inr (Or.inr (by simp [hneg]))
      · by_cases hz : me.procResult = 0
        · exact Or.inr (Or.inl (by simp [hneg, hz]))
        · simpa [hneg, hz] using readLoop_cases ents rest

theorem length_updateEnt (ents : List MonitorEntry) (i : Nat)
    (f : MonitorEntry → MonitorEntry) : (updateEnt ents i f).length = ents.length := by
  unfold updateEnt
  cases hget : ents[i]? <;> simp

theorem read_epoll_frame (st : MState) (timeout : Int) :
    (read_epoll_events st timeout).2.1.fd = st.fd ∧
    (read_epoll_events st timeout).2.1.last = st.last ∧
    (read_epoll_events st timeout).2.1.reg = st.reg ∧
    (read_epoll_events st timeout).2.1.ents.length = st.ents.length := by
  simp only [read_epoll_events]
  cases hacc : (readLoop st.ents st.pending).2.2 with
  | none => simp
  | some i => simp [length_updateEnt]

theorem read_epoll_cases (st : MState) (timeout : Int) :
    ((read_epoll_events st timeout).1 = 1 ∧ (read_epoll_events st timeout).2.2 = none) ∨
    ((read_epoll_events st timeout).1 = 0 ∧ ∃ i, (read_epoll_events st timeout).2.2 = some i) ∨
    ((read_epoll_events st timeout).1 < 0 ∧ (read_epoll_events st timeout).2.2 = none) := by
  simp only [read_epoll_events]
  rcases readLoop_cases st.ents st.pending with ⟨h1, h2⟩ | ⟨h1, i, h2⟩ | ⟨h1, h2⟩
  · rw [h2]
    exact Or.inl (by simp [h1])
  · rw [h2]
    exact Or.inr (Or.inl (by simp [h1]))
  · rw [h2]
    exact Or.inr (Or.inr (by simp [h1]))

theorem read_epoll_noPending {st : MState} (timeout : Int) (hp : st.pending = []) :
    read_epoll_events st timeout = (1, st, none) := by
  simp only [read_epoll_events]
  rw [hp]
  show (1, { st with pending := [] }, none) = (1, st, none)
  rw [← hp]

theorem wait_noPending {os : Os} {st : MState} (timeout : Int)
    (hfd : 0 ≤ st.fd) (hp : st.pending = []) :
    mnt_monitor_wait os (some st) timeout = (0, some st) := by
  simp [mnt_monitor_wait, not_lt.2 hfd, read_epoll_noPending timeout hp]

theorem registerEnabled_spec {os : Os} (hg : goodOracle os) :
    ∀ (l : List Nat) (st : MState), 0 ≤ st.fd → entsFdNz st →
      (registerEnabled os st l).1 = 0 ∧
      (registerEnabled os st l).2.fd = st.fd ∧
      (registerEnabled os st l).2.ents.length = st.ents.length ∧
      (∀ k, entEnabled (registerEnabled os st l).2 k = entEnabled st k) ∧
      entsFdNz (registerEnabled os st l).2 ∧
      (∀ k, k ∈ (registerEnabled os st l).2.reg ↔
        (k ∈ st.reg ∨ (k ∈ l ∧ entEnabled st k = true)))
  | [], st, hfd, hnz => by
    unfold registerEnabled
    exact ⟨rfl, rfl, rfl, fun k => rfl, hnz, fun k => by simp⟩
  | i :: rest, st, hfd, hnz => by
    unfold registerEnabled
    cases hget : st.ents[i]? with
    | none =>
      dsimp only
      have hEi : entEnabled st i = false := by
        unfold entEnabled entEnabledL
        rw [hget]
      obtain ⟨h1, h2, h3, h4, h5, h6⟩ := registerEnabled_spec hg rest st hfd hnz
      refine ⟨h1, h2, h3, h4, h5, fun k => ?_⟩
      rw [h6 k]
      by_cases hk : k = i
      · subst hk
        simp [hEi]
      · simp only [List.mem_cons, hk, false_or]
    | some me =>
      dsimp only
      by_cases hen : me.enabled
      · have hi : i < st.ents.length := lt_length_of_getElem?_eq_some hget
        have hEi : entEnabled st i = true := by
          unfold entEnabled entEnabledL
          rw [hget]
          exact hen
        have hmod := @modify_enable_ok os st i me hget hfd (le_of_lt (hg.1 i)) (hg.2.1 i)
        rw [if_pos hen, hmod]
        simp only [bne_self_eq_false, Bool.false_eq_true, if_false, reduceCtorEq]
        set meN : MonitorEntry :=
          { me with enabled := true, active := false, fd := os.getFd i } with hmeN
        set stE : MState :=
          { st with
              ents := st.ents.set i meN,
              reg := regInsert i st.reg,
              pending := if me.events &&& (EPOLLIN ||| EPOLLET) != 0 then []
                         else st.pending ++ os.initEvents i } with hstE
        have hnzE : entsFdNz stE := by
          intro me2 hmem
          rcases List.mem_or_eq_of_mem_set hmem with h2 | rfl
          · exact hnz me2 h2
          · exact ne_of_gt (hg.1 i)
        have hEe : ∀ k, entEnabled stE k = entEnabled st k := by
          intro k
          show entEnabledL (st.ents.set i meN) k = entEnabledL st.ents k
          rw [entEnabledL_set hi]
          by_cases hk : k = i
          · subst hk
            rw [if_pos rfl]
            show true = entEnabled st k
            rw [hEi]
          · rw [if_neg hk]
        obtain ⟨h1, h2, h3, h4, h5, h6⟩ := registerEnabled_spec hg rest stE hfd hnzE
        refine ⟨h1, h2, ?_, fun k => (h4 k).trans (hEe k), h5, fun k => ?_⟩
        · rw [h3]
          show (st.ents.set i meN).length = st.ents.length
          exact List.length_set st.ents i meN
        · rw [h6 k, hEe k]
          have hregE : k ∈ stE.reg ↔ (k ∈ st.reg ∨ k = i) := mem_regInsert
          rw [hregE]
          by_cases hk : k = i
          · subst hk
            simp [hEi]
          · simp only [List.mem_cons, hk, false_or, or_false]
      · have hEi : entEnabled st i = false := by
          unfold entEnabled entEnabledL
          rw [hget]
          simpa using hen
        rw [if_neg hen]
        obtain ⟨h1, h2, h3, h4, h5, h6⟩ := registerEnabled_spec hg rest st hfd hnz
        refine ⟨h1, h2, h3, h4, h5, fun k => ?_⟩
        rw [h6 k]
        by_cases hk : k = i
        · subst hk
          simp [hEi]
        · simp only [List.mem_cons, hk, false_or]

theorem getFd_idem {os : Os} {st : MState} (hfd : 0 ≤ st.fd) :
    mnt_monitor_get_fd os (some st) = (st.fd, some st) := by
  simp [mnt_monitor_get_fd, hfd]

theorem getFd_create_ok {os : Os} {st : MState} (hg : goodOracle os)
    (hfd : st.fd < 0) (hc : 0 ≤ os.epollCreate) (hnz : entsFdNz st) :
    (mnt_monitor_get_fd os (some st)).1 = os.epollCreate ∧
    ∃ st2, (mnt_monitor_get_fd os (some st)).2 = some st2 ∧
      st2.fd = os.epollCreate ∧
      st2.ents.length = st.ents.length ∧
      (∀ k, entEnabled st2 k = entEnabled st k) ∧
      entsFdNz st2 ∧
      (∀ k, k ∈ st2.reg ↔ (k < st.ents.length ∧ entEnabled st k = true)) := by
  have h1 : ¬ 0 ≤ st.fd := not_le.2 hfd
  have h2 : ¬ os.epollCreate < 0 := not_lt.2 hc
  obtain ⟨r1, r2, r3, r4, r5, r6⟩ :=
    registerEnabled_spec hg (List.range st.ents.length)
      { st with fd := os.epollCreate, reg := [], pending := [] } hc hnz
  simp only [mnt_monitor_get_fd]
  rw [if_neg h1, if_neg h2]
  rw [r1]
  simp only [bne_self_eq_false, Bool.false_eq_true, if_false, reduceCtorEq]
  refine ⟨trivial, (registerEnabled os
      { st with fd := os.epollCreate, reg := [], pending := [] }
      (List.range st.ents.length)).2, rfl, r2, r3, r4, r5, fun k => ?_⟩
  rw [r6 k]
  simp only [List.mem_range, List.not_mem_nil, false_or]
  constructor
  · rintro ⟨hk, he⟩
    exact ⟨hk, he⟩
  · rintro ⟨hk, he⟩
    exact ⟨hk, he⟩

theorem getFd_err_reset {os : Os} {st : MState} (hfd : st.fd < 0)
    (hrc : (mnt_monitor_get_fd os (some st)).1 < 0) :
    ∃ st2, (mnt_monitor_get_fd os (some st)).2 = some st2 ∧ st2.fd = -1 := by
  have h1 : ¬ 0 ≤ st.fd := not_le.2 hfd
  simp only [mnt_monitor_get_fd] at hrc ⊢
  rw [if_neg h1] at hrc ⊢
  by_cases h2 : os.epollCreate < 0
  · rw [if_pos h2] at hrc ⊢
    exact ⟨_, rfl, rfl⟩
  · rw [if_neg h2] at hrc ⊢
    by_cases h3 :
        ((registerEnabled os { st with fd := os.epollCreate, reg := [], pending := [] }
          (List.range ({ st with fd := os.epollCreate, reg := [], pending := [] } :
            MState).ents.length)).1 != 0) = true
    · rw [if_pos h3] at hrc ⊢
      exact ⟨_, rfl, rfl⟩
    · rw [if_neg h3] at hrc
      exact absurd hrc (not_lt.2 (not_lt.1 h2))

theorem monInv_modify_enable {os : Os} {st : MState} {i : Nat}
    (hg : goodOracle os) (hinv : monInv st) :
    monInv (monitor_modify_epoll os st i true).2 := by
  cases hget : st.ents[i]? with
  | none =>
    unfold monitor_modify_epoll
    rw [hget]
    exact hinv
  | some me0 =>
    have hi : i < st.ents.length := lt_length_of_getElem?_eq_some hget
    by_cases hfd : st.fd < 0
    · rw [modify_noEpoll hget hfd]
      refine ⟨fun hge => absurd hge (not_le.2 hfd), ?_⟩
      intro me2 hmem
      rcases List.mem_or_eq_of_mem_set hmem with h2 | rfl
      · exact hinv.2 me2 h2
      · exact hinv.2 me0 (mem_of_getElem?_eq_some hget)
    · have hfd0 : 0 ≤ st.fd := not_lt.1 hfd
      rw [modify_enable_ok hget hfd0 (le_of_lt (hg.1 i)) (hg.2.1 i)]
      obtain ⟨hv, hiff⟩ := hinv.1 hfd0
      constructor
      · intro _
        constructor
        · intro j hj
          rcases mem_regInsert.1 hj with hj2 | rfl
          · simpa using hv j hj2
          · simpa using hi
        · intro k hk
          have hk0 : k < st.ents.length := by simpa using hk
          rw [mem_regInsert]
          show _ ↔ entEnabledL (st.ents.set i _) k = true
          rw [entEnabledL_set hi]
          by_cases hik : k = i
          · subst hik
            simp
          · simp only [hik, if_false, or_false]
            exact hiff k hk0
      · intro me2 hmem
        rcases List.mem_or_eq_of_mem_set hmem with h2 | rfl
        · exact hinv.2 me2 h2
        · exact ne_of_gt (hg.1 i)

theorem monInv_modify_disable {os : Os} {st : MState} {i : Nat}
    (hg : goodOracle os) (hinv : monInv st) :
    monInv (monitor_modify_epoll os st i false).2 := by
  cases hget : st.ents[i]? with
  | none =>
    unfold monitor_modify_epoll
    rw [hget]
    exact hinv
  | some me0 =>
    have hi : i < st.ents.length := lt_length_of_getElem?_eq_some hget
    have hnzset : entsFdNz
        { st with ents := st.ents.set i { me0 with enabled := false, active := false } } := by
      intro me2 hmem
      rcases List.mem_or_eq_of_mem_set hmem with h2 | rfl
      · exact hinv.2 me2 h2
      · exact hinv.2 me0 (mem_of_getElem?_eq_some hget)
    by_cases hfd : st.fd < 0
    · rw [modify_noEpoll hget hfd]
      exact ⟨fun hge => absurd hge (not_le.2 hfd), hnzset⟩
    · have hfd0 : 0 ≤ st.fd := not_lt.1 hfd
      have hnz : me0.fd ≠ 0 := hinv.2 me0 (mem_of_getElem?_eq_some hget)
      rw [modify_disable_ok hget hfd0 hnz (hg.2.2 i)]
      obtain ⟨hv, hiff⟩ := hinv.1 hfd0
      refine ⟨fun _ => ⟨?_, ?_⟩, hnzset⟩
      · intro j hj
        simpa using hv j (mem_regRemove.1 hj).1
      · intro k hk
        have hk0 : k < st.ents.length := by simpa using hk
        rw [mem_regRemove]
        show _ ↔ entEnabledL (st.ents.set i _) k = true
        rw [entEnabledL_set hi]
        by_cases hik : k = i
        · subst hik
          simp
        · simp only [hik, if_false, and_iff_left hik]
          exact hiff k hk0

theorem monInv_getfd {os : Os} {st : MState} (hg : goodOracle os) (hinv : monInv st) :
    monInv ((mnt_monitor_get_fd os (some st)).2.getD st) := by
  by_cases hfd : 0 ≤ st.fd
  · rw [getFd_idem hfd]
    exact hinv
  · have hfd1 : st.fd < 0 := not_le.1 hfd
    by_cases hc : os.epollCreate < 0
    · simp only [mnt_monitor_get_fd, if_neg hfd, if_pos hc, Option.getD_some]
      exact ⟨fun hge => absurd hge (by norm_num), hinv.2⟩
    · obtain ⟨hrc, st2, heq, h1, h2, h3, h4, h5⟩ :=
        getFd_create_ok hg hfd1 (not_lt.1 hc) hinv.2
      rw [heq]
      simp only [Option.getD_some]
      refine ⟨fun _ => ⟨?_, ?_⟩, h4⟩
      · intro j hj
        rw [h2]
        exact ((h5 j).1 hj).1
      · intro k hk
        rw [h5 k, h3 k]
        have hk0 : k < st.ents.length := by
          rw [h2] at hk
          exact hk
        simp [hk0]

theorem monInv_runOps {os : Os} (hg : goodOracle os) :
    ∀ (ops : List MOp) (st st2 : MState), monInv st →
      runOps os st ops = some st2 → monInv st2
  | [], st, st2, hinv, hrun => by
    simp only [runOps] at hrun
    exact (Option.some.inj hrun) ▸ hinv
  | op :: rest, st, st2, hinv, hrun => by
    simp only [runOps] at hrun
    by_cases hrc : (applyOp os st op).1 < 0
    · rw [if_pos hrc] at hrun
      exact absurd hrun (by simp)
    · rw [if_neg hrc] at hrun
      refine monInv_runOps hg rest _ st2 ?_ hrun
      cases op with
      | enable i => exact monInv_modify_enable hg hinv
      | disable i => exact monInv_modify_disable hg hinv
      | getfd => exact monInv_getfd hg hinv

theorem lt_length_of_entEnabled {st : MState} {k : Nat}
    (h : entEnabled st k = true) : k < st.ents.length := by
  unfold entEnabled entEnabledL at h
  cases hget : st.ents[k]? with
  | none => rw [hget] at h; exact absurd h (by simp)
  | some me => exact lt_length_of_getElem?_eq_some hget

theorem get_active_none {st : MState}
    (hact : ∀ me2 ∈ st.ents, me2.active = false) : get_active st = none := by
  unfold get_active
  rw [List.findIdx?_eq_none_iff]
  intro me2 hmem
  exact hact me2 hmem

theorem nextChange_noChange {st : MState} (hfd : 0 ≤ st.fd) (hp : st.pending = [])
    (hact : ∀ me2 ∈ st.ents, me2.active = false) :
    mnt_monitor_next_change (some st) = (1, some { st with last := none }, none) := by
  have hga : get_active { st with last := none } = none := get_active_none hact
  have hread : read_epoll_events { st with last := none } 0 =
      (1, { st with last := none }, none) := read_epoll_noPending 0 hp
  simp only [mnt_monitor_next_change]
  rw [if_neg (not_lt.2 hfd), hga, hread]
  rfl

theorem nextChange_accept {st : MState} {i : Nat} {me : MonitorEntry}
    (hfd : 0 ≤ st.fd) (hp : st.pending = [i]) (hget : st.ents[i]? = some me)
    (hproc : me.procResult = 0) (hact : ∀ me2 ∈ st.ents, me2.active = false) :
    mnt_monitor_next_change (some st) =
      (0, some { st with ents := st.ents.set i { me with active := false },
                         last := some i, pending := [] },
       some (me.path, me.type)) := by
  have hi := lt_length_of_getElem?_eq_some hget
  have hga : get_active { st with last := none } = none := get_active_none hact
  have hread : read_epoll_events { st with last := none } 0 =
      (0, ({ st with last := none, pending := [],
                     ents := st.ents.set i { me with active := true } } : MState),
       some i) := by
    simp only [read_epoll_events]
    rw [show ({ st with last := none } : MState).pending = [i] from hp]
    simp only [readLoop, hget, hproc]
    norm_num [updateEnt, hget]
    rw [hproc]
  simp only [mnt_monitor_next_change]
  rw [if_neg (not_lt.2 hfd), hga, hread]
  simp only [bne_self_eq_false, Bool.false_eq_true, if_false, reduceCtorEq]
  simp only [nextChangeFinish, List.getElem?_set_self hi, List.set_set]

theorem nextChange_last_none {st : MState} (hfd : 0 ≤ st.fd)
    (hrc : (mnt_monitor_next_change (some st)).1 ≠ 0) :
    ∃ st2, (mnt_monitor_next_change (some st)).2.1 = some st2 ∧ st2.last = none := by
  simp only [mnt_monitor_next_change] at hrc ⊢
  rw [if_neg (not_lt.2 hfd)] at hrc ⊢
  cases hga : get_active { st with last := none } with
  | some i =>
    rw [hga] at hrc
    simp only [nextChangeFinish] at hrc ⊢
    cases hget : ({ st with last := none } : MState).ents[i]? with
    | none =>
      rw [hget] at hrc
      exact ⟨_, rfl, rfl⟩
    | some me =>
      rw [hget] at hrc
      exact absurd rfl hrc
  | none =>
    rw [hga] at hrc
    have hlast : (read_epoll_events { st with last := none } 0).2.1.last = none :=
      (read_epoll_frame { st with last := none } 0).2.1
    by_cases hr1 : ((read_epoll_events { st with last := none } 0).1 != 0) = true
    · rw [if_pos hr1] at hrc ⊢
      exact ⟨_, rfl, hlast⟩
    · rw [if_neg hr1] at hrc ⊢
      cases hacc : (read_epoll_events { st with last := none } 0).2.2 with
      | none =>
        rw [hacc] at hrc
        exact ⟨_, rfl, hlast⟩
      | some i =>
        rw [hacc] at hrc
        simp only [nextChangeFinish] at hrc ⊢
        cases hget : (read_epoll_events { st with last := none } 0).2.1.ents[i]? with
        | none =>
          rw [hget] at hrc
          exact ⟨_, rfl, hlast⟩
        | some me =>
          rw [hget] at hrc
          exact absurd rfl hrc

theorem event_next_fs_of_last_none {st : MState} (h : st.last = none) :
    mnt_monitor_event_next_fs (some st) (some ()) = 1 := by
  simp [mnt_monitor_event_next_fs, h]

theorem closeLoop_cons (os : Os) (st : MState) (i : Nat) (rest : List Nat) :
    closeLoop os st (i :: rest) =
      closeLoop os
        { (if 0 ≤ st.fd then (monitor_modify_epoll os st i false).2 else st) with
          ents := updateEnt
            (if 0 ≤ st.fd then (monitor_modify_epoll os st i false).2 else st).ents
            i (fun me => { me with fd := -1 }) } rest := rfl

theorem closeLoop_spec (os : Os) :
    ∀ (l : List Nat) (st : MState),
      (closeLoop os st l).fd = st.fd ∧
      (closeLoop os st l).ents.length = st.ents.length ∧
      (∀ k, k ∉ l → (closeLoop os st l).ents[k]? = st.ents[k]?) ∧
      (∀ k mk, k ∈ l → st.ents[k]? = some mk →
        ∃ me2, (closeLoop os st l).ents[k]? = some me2 ∧ me2.fd = -1 ∧
          (0 ≤ st.fd → (me2.enabled = false ∧ me2.active = false)))
  | [], st => by
    unfold closeLoop
    exact ⟨rfl, rfl, fun k _ => rfl, fun k mk hk _ => absurd hk (List.not_mem_nil k)⟩
  | i :: rest, st => by
    cases hget : st.ents[i]? with
    | none =>
      have hm : (monitor_modify_epoll os st i false).2 = st := by
        unfold monitor_modify_epoll
        rw [hget]
      have hif : (if 0 ≤ st.fd then (monitor_modify_epoll os st i false).2 else st) = st := by
        rw [hm, ite_self]
      have hue : updateEnt st.ents i (fun me => { me with fd := -1 }) = st.ents := by
        unfold updateEnt
        rw [hget]
      rw [closeLoop_cons os st i rest, hif, hue]
      obtain ⟨h1, h2, h3, h4⟩ := closeLoop_spec os rest st
      refine ⟨h1, h2, fun k hk => h3 k (fun hk2 => hk (List.mem_cons_of_mem i hk2)),
        fun k mk hk hkg => ?_⟩
      rcases List.mem_cons.1 hk with rfl | hk2
      · rw [hget] at hkg
        exact absurd hkg (by simp)
      · exact h4 k mk hk2 hkg
    | some me0 =>
      have hi := lt_length_of_getElem?_eq_some hget
      by_cases hfd : 0 ≤ st.fd
      · obtain ⟨hpe, hpf, hpl, hpp⟩ := @modify_disable_parts os st i me0 hget
        have hents : updateEnt (monitor_modify_epoll os st i false).2.ents i
            (fun me => { me with fd := -1 }) =
            st.ents.set i { me0 with enabled := false, active := false, fd := -1 } := by
          unfold updateEnt
          rw [hpe, List.getElem?_set_self (by simpa using hi)]
          dsimp only
          rw [List.set_set]
        rw [closeLoop_cons os st i rest, if_pos hfd, hents]
        obtain ⟨h1, h2, h3, h4⟩ := closeLoop_spec os rest
          { (monitor_modify_epoll os st i false).2 with
            ents := st.ents.set i { me0 with enabled := false, active := false, fd := -1 } }
        have hfdM : ({ (monitor_modify_epoll os st i false).2 with
            ents := st.ents.set i { me0 with enabled := false, active := false, fd := -1 } } :
            MState).fd = st.fd := hpf
        have hgi : ({ (monitor_modify_epoll os st i false).2 with
            ents := st.ents.set i { me0 with enabled := false, active := false, fd := -1 } } :
            MState).ents[i]? =
            some { me0 with enabled := false, active := false, fd := -1 } := by
          show (st.ents.set i _)[i]? = _
          exact List.getElem?_set_self hi
        refine ⟨by rw [h1]; exact hfdM,
          by rw [h2]; exact List.length_set st.ents i _,
          fun k hk => ?_, fun k mk hk hkg => ?_⟩
        · have hki : k ≠ i := fun he => hk (he ▸ List.mem_cons_self i rest)
          rw [h3 k (fun hk2 => hk (List.mem_cons_of_mem i hk2))]
          show (st.ents.set i _)[k]? = st.ents[k]?
          exact List.getElem?_set_ne (fun he => hki he.symm)
        · rcases List.mem_cons.1 hk with rfl | hk2
          · by_cases hir : k ∈ rest
            · obtain ⟨me2, hm1, hm2, hm3⟩ := h4 k _ hir hgi
              exact ⟨me2, hm1, hm2, fun _ => hm3 (by rw [hfdM]; exact hfd)⟩
            · refine ⟨{ me0 with enabled := false, active := false, fd := -1 },
                ?_, rfl, fun _ => ⟨rfl, rfl⟩⟩
              rw [h3 k hir]
              exact hgi
          · by_cases hki : k = i
            · subst hki
              obtain ⟨me2, hm1, hm2, hm3⟩ := h4 k _ hk2 hgi
              exact ⟨me2, hm1, hm2, fun _ => hm3 (by rw [hfdM]; exact hfd)⟩
            · have hgk : ({ (monitor_modify_epoll os st i false).2 with
                  ents := st.ents.set i
                    { me0 with enabled := false, active := false, fd := -1 } } :
                  MState).ents[k]? = some mk := by
                show (st.ents.set i _)[k]? = some mk
                rw [List.getElem?_set_ne (fun he => hki he.symm)]
                exact hkg
              obtain ⟨me2, hm1, hm2, hm3⟩ := h4 k mk hk2 hgk
              exact ⟨me2, hm1, hm2, fun _ => hm3 (by rw [hfdM]; exact hfd)⟩
      · have hents : updateEnt st.ents i (fun me => { me with fd := -1 }) =
            st.ents.set i { me0 with fd := -1 } := by
          unfold updateEnt
          rw [hget]
        rw [closeLoop_cons os st i rest, if_neg hfd, hents]
        obtain ⟨h1, h2, h3, h4⟩ := closeLoop_spec os rest
          { st with ents := st.ents.set i { me0 with fd := -1 } }
        have hgi : ({ st with ents := st.ents.set i { me0 with fd := -1 } } :
            MState).ents[i]? = some { me0 with fd := -1 } := by
          show (st.ents.set i _)[i]? = _
          exact List.getElem?_set_self hi
        refine ⟨by rw [h1],
          by rw [h2]; exact List.length_set st.ents i _,
          fun k hk => ?_, fun k mk hk hkg => ?_⟩
        · have hki : k ≠ i := fun he => hk (he ▸ List.mem_cons_self i rest)
          rw [h3 k (fun hk2 => hk (List.mem_cons_of_mem i hk2))]
          show (st.ents.set i _)[k]? = st.ents[k]?
          exact List.getElem?_set_ne (fun he => hki he.symm)
        · rcases List.mem_cons.1 hk with rfl | hk2
          · by_cases hir : k ∈ rest
            · obtain ⟨me2, hm1, hm2, _⟩ := h4 k _ hir hgi
              exact ⟨me2, hm1, hm2, fun hge => absurd hge hfd⟩
            · refine ⟨{ me0 with fd := -1 }, ?_, rfl, fun hge => absurd hge hfd⟩
              rw [h3 k hir]
              exact hgi
          · by_cases hki : k = i
            · subst hki
              obtain ⟨me2, hm1, hm2, _⟩ := h4 k _ hk2 hgi
              exact ⟨me2, hm1, hm2, fun hge => absurd hge hfd⟩
            · have hgk : ({ st with ents := st.ents.set i { me0 with fd := -1 } } :
                  MState).ents[k]? = some mk := by
                show (st.ents.set i _)[k]? = some mk
                rw [List.getElem?_set_ne (fun he => hki he.symm)]
                exact hkg
              obtain ⟨me2, hm1, hm2, _⟩ := h4 k mk hk2 hgk
              exact ⟨me2, hm1, hm2, fun hge => absurd hge hfd⟩


theorem wait_result_cases (os : Os) (st : MState) (timeout : Int) :
    (mnt_monitor_wait os (some st) timeout).1 = 1 ∨
    (mnt_monitor_wait os (some st) timeout).1 = 0 ∨
    (mnt_monitor_wait os (some st) timeout).1 < 0 := by
  have hmap : ∀ st1 : MState,
      ((if (read_epoll_events st1 timeout).1 = 0 then (1 : Int)
        else if (read_epoll_events st1 timeout).1 = 1 then 0
        else (read_epoll_events st1 timeout).1) = 1 ∨
       (if (read_epoll_events st1 timeout).1 = 0 then (1 : Int)
        else if (read_epoll_events st1 timeout).1 = 1 then 0
        else (read_epoll_events st1 timeout).1) = 0 ∨
       (if (read_epoll_events st1 timeout).1 = 0 then (1 : Int)
        else if (read_epoll_events st1 timeout).1 = 1 then 0
        else (read_epoll_events st1 timeout).1) < 0) := by
    intro st1
    rcases read_epoll_cases st1 timeout with ⟨h1, _⟩ | ⟨h1, _⟩ | ⟨h1, _⟩
    · rw [h1]
      norm_num
    · rw [h1]
      norm_num
    · rw [if_neg (by intro h; rw [h] at h1; exact absurd h1 (by norm_num)),
          if_neg (by intro h; rw [h] at h1; exact absurd h1 (by norm_num))]
      exact Or.inr (Or.inr h1)
  simp only [mnt_monitor_wait]
  by_cases hfd : st.fd < 0
  · rw [if_pos hfd]
    cases hp2 : (mnt_monitor_get_fd os (some st)).2 with
    | none =>
      dsimp only
      refine Or.inr (Or.inr ?_)
      norm_num [EINVAL]
    | some st1 =>
      dsimp only
      by_cases hp1 : (mnt_monitor_get_fd os (some st)).1 < 0
      · rw [if_pos hp1]
        exact Or.inr (Or.inr hp1)
      · rw [if_neg hp1]
        exact hmap st1
  · rw [if_neg hfd]
    have h00 : ¬ ((0 : Int) < 0) := by norm_num
    dsimp only
    rw [if_neg h00]
    exact hmap st

theorem modify_enable_errfd {os : Os} {st : MState} {i : Nat} {me0 : MonitorEntry}
    (hget : st.ents[i]? = some me0) (hfd : 0 ≤ st.fd) (hg : os.getFd i < 0) :
    monitor_modify_epoll os st i true =
      (os.getFd i,
       { st with ents := st.ents.set i { me0 with enabled := true, active := false } }) := by
  unfold monitor_modify_epoll
  rw [hget]
  simp [not_lt.2 hfd, hg]

theorem modify_enable_eexist {os : Os} {st : MState} {i : Nat} {me0 : MonitorEntry}
    (hget : st.ents[i]? = some me0) (hfd : 0 ≤ st.fd)
    (hg : 0 ≤ os.getFd i) (hadd : os.addRes i = some EEXIST) :
    monitor_modify_epoll os st i true =
      (0, { st with
              ents := st.ents.set i
                { me0 with enabled := true, active := false, fd := os.getFd i },
              pending := if me0.events &&& (EPOLLIN ||| EPOLLET) != 0 then []
                         else st.pending }) := by
  unfold monitor_modify_epoll
  rw [hget]
  simp only [not_lt.2 hfd, if_false, if_true, hadd, List.set_set]
  by_cases hmask : me0.events &&& (EPOLLIN ||| EPOLLET) != 0
  · simp [not_lt.2 hfd, not_lt.2 hg, hmask]
  · simp [not_lt.2 hfd, not_lt.2 hg, hmask]

theorem modify_enable_addfail {os : Os} {st : MState} {i : Nat} {me0 : MonitorEntry}
    {e : Int} (hget : st.ents[i]? = some me0) (hfd : 0 ≤ st.fd)
    (hg : 0 ≤ os.getFd i) (hadd : os.addRes i = some e) (he : e ≠ EEXIST) (he0 : e ≠ 0) :
    monitor_modify_epoll os st i true =
      (-e, { st with
               ents := st.ents.set i
                 { me0 with enabled := true, active := false, fd := os.getFd i } }) := by
  have hne : (-e : Int) ≠ 0 := by
    intro h
    exact he0 (by linarith)
  unfold monitor_modify_epoll
  rw [hget]
  simp [not_lt.2 hfd, not_lt.2 hg, hadd, he, hne, List.set_set]

theorem modify_enable_addzero {os : Os} {st : MState} {i : Nat} {me0 : MonitorEntry}
    (hget : st.ents[i]? = some me0) (hfd : 0 ≤ st.fd)
    (hg : 0 ≤ os.getFd i) (hadd : os.addRes i = some 0) (he : (0 : Int) ≠ EEXIST) :
    monitor_modify_epoll os st i true =
      (0, { st with
              ents := st.ents.set i
                { me0 with enabled := true, active := false, fd := os.getFd i },
              pending := if me0.events &&& (EPOLLIN ||| EPOLLET) != 0 then []
                         else st.pending }) := by
  unfold monitor_modify_epoll
  rw [hget]
  simp only [not_lt.2 hfd, if_false, if_true, hadd, List.set_set]
  by_cases hmask : me0.events &&& (EPOLLIN ||| EPOLLET) != 0
  · simp [not_lt.2 hfd, not_lt.2 hg, he, hmask]
  · simp [not_lt.2 hfd, not_lt.2 hg, he, hmask]

theorem modify_enable_drained {os : Os} {st : MState} {i : Nat} {me0 : MonitorEntry}
    (hget : st.ents[i]? = some me0) (hfd : 0 ≤ st.fd)
    (hmask : me0.events &&& (EPOLLIN ||| EPOLLET) ≠ 0)
    (hrc : (monitor_modify_epoll os st i true).1 = 0) :
    (monitor_modify_epoll os st i true).2.pending = [] ∧
    (monitor_modify_epoll os st i true).2.fd = st.fd := by
  have hmb : (me0.events &&& (EPOLLIN ||| EPOLLET) != 0) = true := by
    simpa using hmask
  by_cases hgfd : os.getFd i < 0
  · rw [modify_enable_errfd hget hfd hgfd] at hrc
    have h0 : os.getFd i = 0 := hrc
    rw [h0] at hgfd
    exact absurd hgfd (by norm_num)
  · have hg : 0 ≤ os.getFd i := not_lt.1 hgfd
    cases hadd : os.addRes i with
    | none =>
      rw [modify_enable_ok hget hfd hg hadd]
      rw [if_pos hmb]
      exact ⟨rfl, rfl⟩
    | some e =>
      by_cases he : e = EEXIST
      · subst he
        rw [modify_enable_eexist hget hfd hg hadd]
        rw [if_pos hmb]
        exact ⟨rfl, rfl⟩
      · by_cases he0 : e = 0
        · subst he0
          rw [modify_enable_addzero hget hfd hg hadd he]
          rw [if_pos hmb]
          exact ⟨rfl, rfl⟩
        · rw [modify_enable_addfail hget hfd hg hadd he he0] at hrc
          exfalso
          apply he0
          have : (-e : Int) = 0 := hrc
          linarith

/-! Concrete states and oracles used by the witnesses and counterexamples. -/

/-- A well-behaved OS oracle: epoll_create1 yields descriptor 4, entry i's
driver opens descriptor 5+i, epoll_ctl always succeeds, and registering
entry i queues one synthetic initial event for it. -/
def exOs : Os :=
  { epollCreate := 4, getFd := fun j => 5 + (j : Int), addRes := fun _ => none,
    delRes := fun _ => none, initEvents := fun j => [j] }

/-- Oracle whose epoll_create1 fails with ENOMEM. -/
def exOsNoMem : Os := { exOs with epollCreate := -12 }

/-- Oracle whose epoll_ctl DEL fails with ENOENT. -/
def exOsDelNoent : Os := { exOs with delRes := fun _ => some ENOENT }

/-- Oracle whose epoll_ctl DEL fails with EBADF (9). -/
def exOsDelBad : Os := { exOs with delRes := fun _ => some 9 }

/-- A fresh kernel-table entry (process events always accepted, no
structured detail). -/
def mountinfoEntry : MonitorEntry :=
  { fd := -1, id := -1, path := "/proc/self/mountinfo", type := 1,
    events := EPOLLIN ||| EPOLLET, enabled := false, active := false,
    hasNextFs := false, procResult := 0, nextFsResult := 1 }

/-- A fresh userspace-table entry. -/
def utabEntry : MonitorEntry :=
  { fd := -1, id := -1, path := "/run/mount/utab", type := 2, events := EPOLLIN,
    enabled := false, active := false, hasNextFs := false, procResult := 0,
    nextFsResult := 1 }

/-- A rich-channel entry whose driver supplies one detail record. -/
def fanotifyEntry : MonitorEntry :=
  { fd := 6, id := -1, path := "/", type := 3, events := EPOLLIN, enabled := true,
    active := false, hasNextFs := true, procResult := 0, nextFsResult := 0 }

/-- A rich-channel entry whose detail enumeration is exhausted. -/
def fanotifyDone : MonitorEntry := { fanotifyEntry with nextFsResult := 1 }

/-- A monitor on which no successful next_change ever happened. -/
def c1NoPrior : MState :=
  { fd := 4, ents := [fanotifyEntry], last := none, reg := [0], pending := [] }

/-- A monitor whose last event's detail enumeration is exhausted. -/
def c1Exhausted : MState :=
  { fd := 4, ents := [fanotifyDone], last := some 0, reg := [0], pending := [] }

/-- A monitor whose last event came from a driver without op_next_fs. -/
def c1Polled : MState :=
  { fd := 4, ents := [{ mountinfoEntry with fd := 5, enabled := true }],
    last := some 0, reg := [0], pending := [] }

/-- A fresh monitor with two disabled entries. -/
def c2Start : MState :=
  monitor_new_entry (monitor_new_entry mnt_new_monitor mountinfoEntry) utabEntry

/-- Enable entry 0, build the epoll, enable entry 1, disable entry 0. -/
def c2Ops : List MOp := [MOp.enable 0, MOp.getfd, MOp.enable 1, MOp.disable 0]

/-- A fresh monitor holding one disabled userspace-table entry. -/
def c8St : MState := monitor_new_entry mnt_new_monitor utabEntry

/-- c8St after enabling its entry while no epoll exists: the enabled flag is
set even though the monitor descriptor is still unset.  Reachable by
mnt_monitor_enable_userspace before any mnt_monitor_get_fd call. -/
def c9Unset : MState := (monitor_modify_epoll exOs c8St 0 true).2

/-- A monitor with a live epoll and one registered, enabled entry. -/
def c9Ready : MState :=
  { fd := 4, ents := [{ utabEntry with fd := 5, enabled := true }], last := none,
    reg := [0], pending := [] }

/-- c9Ready with one pending accepted event queued. -/
def c5Ready : MState := { c9Ready with pending := [0] }

/-- A monitor with a ready rich-channel event pending. -/
def c10Ready : MState :=
  { fd := 4, ents := [fanotifyEntry], last := none, reg := [0], pending := [0] }

/-- c10Ready after one successful mnt_monitor_next_change: last = entry 0. -/
def c10AfterNext : MState :=
  ((mnt_monitor_next_change (some c10Ready)).2.1).getD mnt_new_monitor

/-- c10AfterNext after mnt_monitor_close_fd: fd is unset again, but the
last back-reference still points at the old event. -/
def c10AfterClose : MState :=
  ((mnt_monitor_close_fd exOs (some c10AfterNext)).2).getD mnt_new_monitor

/-- The epoll-bearing monitor used by the C6 witness. -/
def c6St : MState :=
  { fd := 4, ents := [mountinfoEntry], last := none, reg := [], pending := [] }

theorem exOs_good : goodOracle exOs := by
  refine ⟨fun j => ?_, fun j => rfl, fun j => rfl⟩
  show (0 : Int) < 5 + (j : Int)
  omega

theorem c2Start_inv : monInv c2Start := by
  constructor
  · intro h
    exact absurd h (by decide)
  · intro me hmem
    fin_cases hmem <;> decide

/-! The ten claims. -/

/-- Claim C1, counterexample.  The claim says a structured-detail call made
before any successful next_change fails with a distinct "no prior event"
error, distinguishable from the plain "no more data" result.  On the code
it returns 1 - the very value mnt_monitor_event_next_fs uses for "no more
data" (here the same monitor with an exhausted enumeration also returns 1),
and it is not a negative error. -/
theorem c1_no_prior_event_counterexample :
    mnt_monitor_event_next_fs (some c1NoPrior) (some ()) = 1 ∧
    mnt_monitor_event_next_fs (some c1Exhausted) (some ()) = 1 ∧
    ¬ mnt_monitor_event_next_fs (some c1NoPrior) (some ()) < 0 := by
  decide

/-- Claim C1, amended.  mnt_monitor_event_next_fs rejects a null fs with
-EINVAL, returns the no-more-data result 1 (not a distinct error) when no
entry has been reported yet, and fails with -ENOTSUP when the last reported
entry's driver lacks the detail operation; the -ENOTSUP outcome is a
distinguishable error, the no-prior-event outcome is not. -/
theorem c1_event_next_fs_amended (st : MState) (i : Nat) (me : MonitorEntry) :
    (mnt_monitor_event_next_fs (some st) none = -EINVAL) ∧
    (st.last = none → mnt_monitor_event_next_fs (some st) (some ()) = 1) ∧
    (st.last = some i → st.ents[i]? = some me → me.hasNextFs = false →
      mnt_monitor_event_next_fs (some st) (some ()) = -ENOTSUP) := by
  refine ⟨rfl, fun h => ?_, fun h1 h2 h3 => ?_⟩
  · simp [mnt_monitor_event_next_fs, h]
  · simp [mnt_monitor_event_next_fs, h1, h2, h3]

/-- Witness for the amended C1 at concrete monitors. -/
theorem c1_event_next_fs_amended_witness :
    mnt_monitor_event_next_fs (some c1NoPrior) (some ()) = 1 ∧
    mnt_monitor_event_next_fs (some c1Polled) (some ()) = -ENOTSUP :=
  ⟨(c1_event_next_fs_amended c1NoPrior 0 fanotifyEntry).2.1 rfl,
   (c1_event_next_fs_amended c1Polled 0 { mountinfoEntry with fd := 5, enabled := true }).2.2
     rfl (by decide) rfl⟩

/-- Claim C2.  Along any successful sequence of enable/disable/get-descriptor
calls (with the OS and drivers succeeding), once the epoll descriptor exists
its registration set holds exactly the entries whose enabled flag is true,
and a disable call issued in such a state succeeds and removes the entry
from the registration set synchronously. -/
theorem c2_registered_eq_enabled (os : Os) (st st2 : MState) (ops : List MOp)
    (hg : goodOracle os) (hinv : monInv st) (hrun : runOps os st ops = some st2) :
    (0 ≤ st2.fd → ∀ i, i < st2.ents.length → (i ∈ st2.reg ↔ entEnabled st2 i = true)) ∧
    (∀ i me0, 0 ≤ st2.fd → st2.ents[i]? = some me0 →
      (monitor_modify_epoll os st2 i false).1 = 0 ∧
      i ∉ (monitor_modify_epoll os st2 i false).2.reg) := by
  have hinv2 := monInv_runOps hg ops st st2 hinv hrun
  constructor
  · intro hfd i hi
    exact (hinv2.1 hfd).2 i hi
  · intro i me0 hfd hget
    have hnz : me0.fd ≠ 0 := hinv2.2 me0 (mem_of_getElem?_eq_some hget)
    rw [modify_disable_ok hget hfd hnz (hg.2.2 i)]
    refine ⟨rfl, fun hmem => ?_⟩
    exact (mem_regRemove.1 hmem).2 rfl

/-- Witness for C2: a concrete enable/get-descriptor/enable/disable run. -/
theorem c2_registered_eq_enabled_witness :
    goodOracle exOs ∧ monInv c2Start ∧
    ∃ st2, runOps exOs c2Start c2Ops = some st2 ∧
      (0 ≤ st2.fd → ∀ i, i < st2.ents.length →
        (i ∈ st2.reg ↔ entEnabled st2 i = true)) :=
  ⟨exOs_good, c2Start_inv,
   ⟨_, rfl, (c2_registered_eq_enabled exOs c2Start _ c2Ops exOs_good c2Start_inv rfl).1⟩⟩

/-- Claim C3.  mnt_monitor_get_fd is idempotent: with a live descriptor it
returns it and changes nothing.  Otherwise it creates one and registers
every enabled entry; if anything fails the monitor descriptor is left at
the unset sentinel -1 and a negative error is returned, and on success the
returned and stored descriptor is valid with every enabled entry
registered. -/
theorem c3_get_fd_idempotent_atomic (os : Os) (st : MState) :
    (0 ≤ st.fd → mnt_monitor_get_fd os (some st) = (st.fd, some st)) ∧
    (st.fd < 0 → (mnt_monitor_get_fd os (some st)).1 < 0 →
      ∃ st2, (mnt_monitor_get_fd os (some st)).2 = some st2 ∧ st2.fd = -1) ∧
    (st.fd < 0 → goodOracle os → 0 ≤ os.epollCreate → entsFdNz st →
      0 ≤ (mnt_monitor_get_fd os (some st)).1 ∧
      ∃ st2, (mnt_monitor_get_fd os (some st)).2 = some st2 ∧ 0 ≤ st2.fd ∧
        (∀ k, k ∈ st2.reg ↔ (k < st.ents.length ∧ entEnabled st k = true))) := by
  refine ⟨fun hfd => getFd_idem hfd, fun hfd hrc => getFd_err_reset hfd hrc,
    fun hfd hg hc hnz => ?_⟩
  obtain ⟨hrc, st2, heq, h1, _, _, _, h5⟩ := getFd_create_ok hg hfd hc hnz
  rw [hrc]
  exact ⟨hc, st2, heq, by rw [h1]; exact hc, h5⟩

/-- Witness for C3: the idempotent case, a failing epoll_create1, and a
successful creation. -/
theorem c3_get_fd_idempotent_atomic_witness :
    mnt_monitor_get_fd exOs (some c9Ready) = (c9Ready.fd, some c9Ready) ∧
    (∃ st2, (mnt_monitor_get_fd exOsNoMem (some c2Start)).2 = some st2 ∧ st2.fd = -1) ∧
    0 ≤ (mnt_monitor_get_fd exOs (some c2Start)).1 := by
  refine ⟨(c3_get_fd_idempotent_atomic exOs c9Ready).1 (by decide),
    (c3_get_fd_idempotent_atomic exOsNoMem c2Start).2.1 (by decide) (by decide),
    ((c3_get_fd_idempotent_atomic exOs c2Start).2.2 (by decide) exOs_good (by decide)
      (by intro me hmem; fin_cases hmem <;> decide)).1⟩

/-- Claim C4.  mnt_monitor_wait rejects a null monitor with -EINVAL and
otherwise returns exactly one of 1 (changed), 0 (timed out) or a negative
error; a bounded wait with nothing pending is reported as 0, never as an
error; and when the descriptor does not yet exist, a wait first creates it
(the returned state carries a valid descriptor). -/
theorem c4_wait_trichotomy (os : Os) (st : MState) (timeout : Int) :
    (mnt_monitor_wait os none timeout = (-EINVAL, none)) ∧
    ((mnt_monitor_wait os (some st) timeout).1 = 1 ∨
     (mnt_monitor_wait os (some st) timeout).1 = 0 ∨
     (mnt_monitor_wait os (some st) timeout).1 < 0) ∧
    (0 ≤ st.fd → st.pending = [] →
      mnt_monitor_wait os (some st) timeout = (0, some st)) ∧
    (st.fd < 0 → goodOracle os → 0 ≤ os.epollCreate → entsFdNz st →
      ∃ st2, (mnt_monitor_wait os (some st) timeout).2 = some st2 ∧ 0 ≤ st2.fd) := by
  refine ⟨rfl, wait_result_cases os st timeout,
    fun hfd hp => wait_noPending timeout hfd hp, fun hfd hg hc hnz => ?_⟩
  obtain ⟨hrc, st1, heq, h1, _, _, _, _⟩ := getFd_create_ok hg hfd hc hnz
  have hnotneg : ¬ (mnt_monitor_get_fd os (some st)).1 < 0 := by
    rw [hrc]
    exact not_lt.2 hc
  simp only [mnt_monitor_wait, if_pos hfd, heq]
  rw [if_neg hnotneg]
  refine ⟨_, rfl, ?_⟩
  have hfd1 := (read_epoll_frame st1 timeout).1
  rw [hfd1, h1]
  exact hc

/-- Witness for C4 at a drained monitor and at a fresh one. -/
theorem c4_wait_trichotomy_witness :
    mnt_monitor_wait exOs (some c9Ready) 0 = (0, some c9Ready) ∧
    (∃ st2, (mnt_monitor_wait exOs (some c2Start) (-1)).2 = some st2 ∧ 0 ≤ st2.fd) :=
  ⟨((c4_wait_trichotomy exOs c9Ready 0).2.2.1 (by decide) rfl),
   ((c4_wait_trichotomy exOs c2Start (-1)).2.2.2 (by decide) exOs_good (by decide)
     (by intro me hmem; fin_cases hmem <;> decide))⟩

/-- Claim C5.  From a monitor state with exactly one pending accepted event
and no already-active entry, mnt_monitor_next_change reports that entry's
path and type once, consuming it, and an immediately following call with no
new event reports "no change" (1) instead of repeating the event. -/
theorem c5_next_change_consumes (st : MState) (i : Nat) (me : MonitorEntry)
    (hfd : 0 ≤ st.fd) (hp : st.pending = [i]) (hget : st.ents[i]? = some me)
    (hproc : me.procResult = 0) (hact : ∀ me2 ∈ st.ents, me2.active = false) :
    ∃ st1, mnt_monitor_next_change (some st) = (0, some st1, some (me.path, me.type)) ∧
      (mnt_monitor_next_change (some st1)).1 = 1 := by
  refine ⟨_, nextChange_accept hfd hp hget hproc hact, ?_⟩
  have hact1 : ∀ me2 ∈ st.ents.set i { me with active := false }, me2.active = false := by
    intro me2 hmem
    rcases List.mem_or_eq_of_mem_set hmem with h2 | rfl
    · exact hact me2 h2
    · rfl
  have h2 := @nextChange_noChange
    { st with ents := st.ents.set i { me with active := false },
              last := some i, pending := [] } hfd rfl hact1
  rw [h2]

/-- Witness for C5: one queued userspace-table event is reported once. -/
theorem c5_next_change_consumes_witness :
    ∃ st1, mnt_monitor_next_change (some c5Ready) =
      (0, some st1, some ("/run/mount/utab", 2)) ∧
      (mnt_monitor_next_change (some st1)).1 = 1 :=
  c5_next_change_consumes c5Ready 0 { utabEntry with fd := 5, enabled := true }
    (by decide) rfl rfl rfl (by intro me hmem; fin_cases hmem; decide)

/-- Claim C6.  Successfully enabling an entry whose wanted events include
EPOLLIN or EPOLLET while the epoll exists leaves the pending-event queue
drained, so an immediately following mnt_monitor_wait with timeout 0
reports a timeout (0), not a change. -/
theorem c6_enable_drains_initial (os : Os) (st : MState) (i : Nat)
    (me0 : MonitorEntry) (hget : st.ents[i]? = some me0) (hfd : 0 ≤ st.fd)
    (hmask : me0.events &&& (EPOLLIN ||| EPOLLET) ≠ 0)
    (hrc : (monitor_modify_epoll os st i true).1 = 0) :
    (monitor_modify_epoll os st i true).2.pending = [] ∧
    mnt_monitor_wait os (some (monitor_modify_epoll os st i true).2) 0 =
      (0, some (monitor_modify_epoll os st i true).2) := by
  obtain ⟨hp, hf⟩ := modify_enable_drained hget hfd hmask hrc
  exact ⟨hp, wait_noPending 0 (by rw [hf]; exact hfd) hp⟩

/-- Witness for C6: enabling the kernel-table entry on a live monitor (the
oracle queues a synthetic initial event for it) drains, and wait(0) times
out. -/
theorem c6_enable_drains_initial_witness :
    (monitor_modify_epoll exOs c6St 0 true).2.pending = [] ∧
    mnt_monitor_wait exOs (some (monitor_modify_epoll exOs c6St 0 true).2) 0 =
      (0, some (monitor_modify_epoll exOs c6St 0 true).2) :=
  c6_enable_drains_initial exOs c6St 0 mountinfoEntry rfl (by decide)
    (by decide) (by decide)

/-- Claim C7.  Disabling a registered entry while the epoll exists swallows
an ENOENT from the removal (the call still returns 0), while any other
removal errno e is propagated as the negative error -e. -/
theorem c7_disable_enoent_swallowed (os : Os) (st : MState) (i : Nat)
    (me0 : MonitorEntry) (hget : st.ents[i]? = some me0) (hfd : 0 ≤ st.fd)
    (hnz : me0.fd ≠ 0) :
    (os.delRes i = some ENOENT → (monitor_modify_epoll os st i false).1 = 0) ∧
    (∀ e, os.delRes i = some e → e ≠ ENOENT →
      (monitor_modify_epoll os st i false).1 = -e ∧
      (0 < e → (monitor_modify_epoll os st i false).1 < 0)) := by
  constructor
  · intro hdel
    rw [modify_disable_enoent hget hfd hnz hdel]
  · intro e hdel he
    rw [modify_disable_err hget hfd hnz hdel he]
    refine ⟨rfl, fun hegt => ?_⟩
    show -e < 0
    omega

/-- Witness for C7: ENOENT swallowed, EBADF propagated as -9. -/
theorem c7_disable_enoent_swallowed_witness :
    (monitor_modify_epoll exOsDelNoent c9Ready 0 false).1 = 0 ∧
    (monitor_modify_epoll exOsDelBad c9Ready 0 false).1 = -9 :=
  ⟨(c7_disable_enoent_swallowed exOsDelNoent c9Ready 0
      { utabEntry with fd := 5, enabled := true } rfl (by decide) (by decide)).1 rfl,
   ((c7_disable_enoent_swallowed exOsDelBad c9Ready 0
      { utabEntry with fd := 5, enabled := true } rfl (by decide) (by decide)).2 9 rfl
      (by decide)).1⟩

/-- Claim C8, counterexample.  The claim says the registration procedure is
a pure no-op when no multiplexing descriptor exists.  It does return 0 and
touch no multiplexer, but it is not state-preserving: enabling an entry on
a descriptor-less monitor still flips the entry's enabled flag. -/
theorem c8_noop_counterexample :
    c8St.fd < 0 ∧
    (monitor_modify_epoll exOs c8St 0 true).1 = 0 ∧
    (monitor_modify_epoll exOs c8St 0 true).2 ≠ c8St ∧
    entEnabled c8St 0 = false ∧
    entEnabled (monitor_modify_epoll exOs c8St 0 true).2 0 = true := by
  decide

/-- Claim C8, amended.  When the monitor has no multiplexing descriptor,
monitor_modify_epoll returns success and performs no epoll operation, but
it still records the requested enabled state and clears the active flag of
the entry; everything else (fd, registration set, pending queue, last,
other entries) is untouched. -/
theorem c8_noop_amended (os : Os) (st : MState) (i : Nat) (en : Bool)
    (me0 : MonitorEntry) (hget : st.ents[i]? = some me0) (hfd : st.fd < 0) :
    monitor_modify_epoll os st i en =
      (0, { st with ents := st.ents.set i { me0 with enabled := en, active := false } }) :=
  modify_noEpoll hget hfd

/-- Witness for the amended C8. -/
theorem c8_noop_amended_witness :
    monitor_modify_epoll exOs c8St 0 true =
      (0, { c8St with
              ents := c8St.ents.set 0
                { utabEntry with enabled := true, active := false } }) :=
  c8_noop_amended exOs c8St 0 true utabEntry (by decide) (by decide)

/-- Claim C9, counterexample.  The claim says mnt_monitor_close_fd always
clears every entry's enabled and active flags.  When the monitor descriptor
is already unset (as in this reachable state: entry enabled before any
get-descriptor call), close_fd returns 0 but leaves the entry enabled, and
a later get-descriptor call would register it again. -/
theorem c9_close_fd_counterexample :
    c9Unset.fd = -1 ∧ entEnabled c9Unset 0 = true ∧
    (mnt_monitor_close_fd exOs (some c9Unset)).1 = 0 ∧
    ((mnt_monitor_close_fd exOs (some c9Unset)).2.map (fun s => entEnabled s 0)) =
      some true := by
  decide

/-- Claim C9, amended.  mnt_monitor_close_fd on a non-null monitor always
returns 0; afterwards the monitor descriptor is the unset sentinel -1, the
epoll state is gone, and every entry's private descriptor is released
(reset to -1); the enabled and active flags of the entries are cleared
provided the multiplexing descriptor existed when the call was made. -/
theorem c9_close_fd_amended (os : Os) (st : MState) :
    (mnt_monitor_close_fd os (some st)).1 = 0 ∧
    ∃ st2, (mnt_monitor_close_fd os (some st)).2 = some st2 ∧
      st2.fd = -1 ∧ st2.reg = [] ∧ st2.pending = [] ∧
      st2.ents.length = st.ents.length ∧
      (∀ me2 ∈ st2.ents, me2.fd = -1) ∧
      (0 ≤ st.fd → ∀ me2 ∈ st2.ents, me2.enabled = false ∧ me2.active = false) := by
  obtain ⟨h1, h2, h3, h4⟩ := closeLoop_spec os (List.range st.ents.length) st
  refine ⟨rfl, _, rfl, rfl, rfl, rfl, h2, fun me2 hmem => ?_, fun hfd me2 hmem => ?_⟩
  · obtain ⟨k, hk⟩ := List.mem_iff_getElem?.1 hmem
    have hklen : k < st.ents.length := by
      have := lt_length_of_getElem?_eq_some hk
      rw [h2] at this
      exact this
    obtain ⟨me3, hm1, hm2, _⟩ := h4 k (st.ents[k]) (List.mem_range.2 hklen)
      (List.getElem?_eq_getElem hklen)
    rw [hk] at hm1
    cases Option.some.inj hm1
    exact hm2
  · obtain ⟨k, hk⟩ := List.mem_iff_getElem?.1 hmem
    have hklen : k < st.ents.length := by
      have := lt_length_of_getElem?_eq_some hk
      rw [h2] at this
      exact this
    obtain ⟨me3, hm1, _, hm3⟩ := h4 k (st.ents[k]) (List.mem_range.2 hklen)
      (List.getElem?_eq_getElem hklen)
    rw [hk] at hm1
    cases Option.some.inj hm1
    exact hm3 hfd

/-- Witness for the amended C9 on a monitor with a live descriptor. -/
theorem c9_close_fd_amended_witness :
    ∃ st2, (mnt_monitor_close_fd exOs (some c9Ready)).2 = some st2 ∧ st2.fd = -1 ∧
      (∀ me2 ∈ st2.ents, me2.enabled = false ∧ me2.active = false) := by
  obtain ⟨h0, st2, heq, hfd, _, _, _, _, hflags⟩ := c9_close_fd_amended exOs c9Ready
  exact ⟨st2, heq, hfd, hflags (by decide)⟩

/-- Claim C10, counterexample.  The claim says that whenever
mnt_monitor_next_change does not return success, a following
mnt_monitor_event_next_fs returns 1.  After a successful next_change
followed by mnt_monitor_close_fd (which resets fd but does not clear
last), next_change fails its fd guard with -EINVAL before clearing last,
and event_next_fs still yields a detail record (0) of the old event. -/
theorem c10_last_counterexample :
    (mnt_monitor_next_change (some c10Ready)).1 = 0 ∧
    (mnt_monitor_close_fd exOs (some c10AfterNext)).1 = 0 ∧
    c10AfterClose.last = some 0 ∧
    (mnt_monitor_next_change (some c10AfterClose)).1 = -EINVAL ∧
    (mnt_monitor_next_change (some c10AfterClose)).2.1 = some c10AfterClose ∧
    mnt_monitor_event_next_fs (some c10AfterClose) (some ()) = 0 := by
  decide

/-- Claim C10, amended.  For a monitor whose descriptor is set (so the
initial validity guard passes), mnt_monitor_next_change clears the last
back-reference before anything else, so whenever it does not return
success the resulting state has no last event and a following
mnt_monitor_event_next_fs returns the no-more-data result 1. -/
theorem c10_last_cleared_amended (st : MState) (hfd : 0 ≤ st.fd)
    (hrc : (mnt_monitor_next_change (some st)).1 ≠ 0) :
    ∃ st2, (mnt_monitor_next_change (some st)).2.1 = some st2 ∧ st2.last = none ∧
      mnt_monitor_event_next_fs (some st2) (some ()) = 1 := by
  obtain ⟨st2, h1, h2⟩ := nextChange_last_none hfd hrc
  exact ⟨st2, h1, h2, event_next_fs_of_last_none h2⟩

/-- Witness for the amended C10: a no-change call leaves no last event. -/
theorem c10_last_cleared_amended_witness :
    ∃ st2, (mnt_monitor_next_change (some c9Ready)).2.1 = some st2 ∧
      st2.last = none ∧ mnt_monitor_event_next_fs (some st2) (some ()) = 1 :=
  c10_last_cleared_amended c9Ready (by decide) (by decide)

end MonitorModel
